import Mathlib

/-
Verification development for the urlmap repository: a URL decomposition and
multi-URL comparison engine.  The data model (ParsedURL), the comparison
functions (getDiffMap from URLParser.tsx, getComponentDiffs and the
query-parameter diff of DiffCheckerView from the multi-URL component) and
parseUrl are embedded from the TypeScript sources.  The WHATWG URL platform
primitive that parseUrl wraps is not part of the repository sources and is
modelled below.
-/

/-- Splits a character list at the first occurrence of a marker character:
returns the part before the marker and, when the marker occurs, the part
after it. -/
def breakFirst (c : Char) : List Char → List Char × Option (List Char)
  | [] => ([], none)
  | x :: xs =>
    if x = c then ([], some xs)
    else
      let r := breakFirst c xs
      (x :: r.1, r.2)

/-- Splits a character list at the last occurrence of a marker character:
returns the part before the marker (when the marker occurs) and the part
after it. -/
def breakLast (c : Char) (l : List Char) : Option (List Char) × List Char :=
  match breakFirst c l.reverse with
  | (_, none) => (none, l)
  | (a, some b) => (some b.reverse, a.reverse)

/-- Takes the longest leading run of alphabetic characters, returning it
together with the remainder of the list. -/
def spanAlpha : List Char → List Char × List Char
  | [] => ([], [])
  | x :: xs =>
    if x.isAlpha then
      let r := spanAlpha xs
      (x :: r.1, r.2)
    else ([], x :: xs)

theorem breakFirst_not_mem {c : Char} {l : List Char} (h : c ∉ l) :
    breakFirst c l = (l, none) := by
  induction l with
  | nil => rfl
  | cons x xs ih =>
    simp only [List.mem_cons, not_or] at h
    simp [breakFirst, Ne.symm h.1, ih h.2]

theorem breakFirst_append {c : Char} {a : List Char} (b : List Char)
    (h : c ∉ a) : breakFirst c (a ++ c :: b) = (a, some b) := by
  induction a with
  | nil => simp [breakFirst]
  | cons x xs ih =>
    simp only [List.mem_cons, not_or] at h
    simp [breakFirst, Ne.symm h.1, ih h.2]

theorem breakFirst_cons (c x : Char) (xs : List Char) :
    breakFirst c (x :: xs) =
      if x = c then ([], some xs)
      else (x :: (breakFirst c xs).1, (breakFirst c xs).2) := rfl

theorem breakFirst_some {c : Char} {l a b : List Char}
    (h : breakFirst c l = (a, some b)) : l = a ++ c :: b ∧ c ∉ a := by
  induction l generalizing a with
  | nil => simp [breakFirst] at h
  | cons x xs ih =>
    rw [breakFirst_cons] at h
    by_cases hx : x = c
    · rw [if_pos hx] at h
      injection h with h1 h2
      injection h2 with h2
      subst h1
      subst h2
      subst hx
      simp
    · rw [if_neg hx] at h
      rcases hbf : breakFirst c xs with ⟨a2, b2⟩
      rw [hbf] at h
      injection h with h1 h2
      subst h1
      subst h2
      obtain ⟨hl, hm⟩ := ih hbf
      subst hl
      constructor
      · simp
      · simp only [List.mem_cons, not_or]
        exact ⟨fun hc => hx hc.symm, hm⟩

theorem breakFirst_none {c : Char} {l a : List Char}
    (h : breakFirst c l = (a, none)) : a = l ∧ c ∉ l := by
  induction l generalizing a with
  | nil =>
    injection h with h1 h2
    subst h1
    simp
  | cons x xs ih =>
    rw [breakFirst_cons] at h
    by_cases hx : x = c
    · rw [if_pos hx] at h
      injection h with h1 h2
      exact Option.noConfusion h2
    · rw [if_neg hx] at h
      rcases hbf : breakFirst c xs with ⟨a2, b2⟩
      rw [hbf] at h
      injection h with h1 h2
      subst h1
      subst h2
      obtain ⟨hl, hm⟩ := ih hbf
      subst hl
      constructor
      · rfl
      · simp only [List.mem_cons, not_or]
        exact ⟨fun hc => hx hc.symm, hm⟩

theorem breakLast_eq (c : Char) (l : List Char) :
    breakLast c l =
      match breakFirst c l.reverse with
      | (_, none) => (none, l)
      | (a, some b) => (some b.reverse, a.reverse) := rfl

theorem breakLast_not_mem {c : Char} {l : List Char} (h : c ∉ l) :
    breakLast c l = (none, l) := by
  have h2 : c ∉ l.reverse := by simpa using h
  rw [breakLast_eq, breakFirst_not_mem h2]

theorem breakLast_append {c : Char} (x : List Char) {y : List Char}
    (h : c ∉ y) : breakLast c (x ++ c :: y) = (some x, y) := by
  have hy : c ∉ y.reverse := by simpa using h
  have hbf : breakFirst c (x ++ c :: y).reverse = (y.reverse, some x.reverse) := by
    have hrev : (x ++ c :: y).reverse = y.reverse ++ c :: x.reverse := by simp
    rw [hrev]
    exact breakFirst_append _ hy
  rw [breakLast_eq, hbf]
  simp

theorem breakLast_some {c : Char} {l x y : List Char}
    (h : breakLast c l = (some x, y)) : l = x ++ c :: y ∧ c ∉ y := by
  rcases hbf : breakFirst c l.reverse with ⟨a, b⟩
  rw [breakLast_eq, hbf] at h
  cases b with
  | none =>
    injection h with h1 h2
    exact Option.noConfusion h1
  | some b2 =>
    injection h with h1 h2
    injection h1 with h1
    subst h1
    subst h2
    obtain ⟨hl, hm⟩ := breakFirst_some hbf
    constructor
    · have hrl := congrArg List.reverse hl
      simpa using hrl
    · simpa using hm

theorem breakLast_none {c : Char} {l y : List Char}
    (h : breakLast c l = (none, y)) : y = l ∧ c ∉ l := by
  rcases hbf : breakFirst c l.reverse with ⟨a, b⟩
  rw [breakLast_eq, hbf] at h
  cases b with
  | some b2 =>
    injection h with h1 h2
    exact Option.noConfusion h1
  | none =>
    injection h with h1 h2
    obtain ⟨ha, hm⟩ := breakFirst_none hbf
    exact ⟨h2.symm, by simpa using hm⟩

theorem spanAlpha_append {a : List Char} (d : Char) (rest : List Char)
    (ha : ∀ c ∈ a, c.isAlpha = true) (hd : d.isAlpha = false) :
    spanAlpha (a ++ d :: rest) = (a, d :: rest) := by
  induction a with
  | nil => simp [spanAlpha, hd]
  | cons x xs ih =>
    have hx : x.isAlpha = true := ha x (by simp)
    have hxs : ∀ c ∈ xs, c.isAlpha = true := fun c hc => ha c (by simp [hc])
    simp [spanAlpha, hx, ih hxs]

/-- Modelled from the spec: the built-in URL parsing primitive that parseUrl
relies on is not part of the repository sources, so the authority split is
modelled after the standard: the userinfo part ends at the last at-sign of
the authority, the username ends at the first colon of the userinfo, and
the port starts at the first colon of the host-port part.  The result is
the tuple of username, password, hostname and port. -/
def authParts (authority : List Char) : List Char × List Char × List Char × List Char :=
  let ba := breakLast '@' authority
  let up : List Char × Option (List Char) :=
    match ba.1 with
    | none => ([], none)
    | some ui => breakFirst ':' ui
  let hp := breakFirst ':' ba.2
  (up.1, up.2.getD [], hp.1, hp.2.getD [])

/-- The component record produced by the modelled URL primitive. -/
structure URLRec where
  scheme : List Char
  username : List Char
  password : List Char
  hostname : List Char
  port : List Char
  pathname : List Char
  query : Option (List Char)
  fragment : Option (List Char)
deriving DecidableEq

/-- Modelled from the spec: continuation of the URL primitive after the
scheme and the two slashes have been consumed.  The fragment starts at the
first hash mark, the query at the first question mark before it, the path
at the first slash before that; an absent path defaults to a single slash.
An empty hostname or a non-digit port is a parse failure. -/
def urlParseAfterScheme (sch rest1 : List Char) : Option URLRec :=
  let bh := breakFirst '#' rest1
  let bq := breakFirst '?' bh.1
  let bp := breakFirst '/' bq.1
  let parts := authParts bp.1
  if parts.2.2.1 = [] then none
  else if parts.2.2.2.all Char.isDigit then
    some { scheme := sch, username := parts.1, password := parts.2.1,
           hostname := parts.2.2.1, port := parts.2.2.2,
           pathname := '/' :: bp.2.getD [], query := bq.2, fragment := bh.2 }
  else none

/-- Modelled from the spec: the new URL platform primitive.  A hierarchical
absolute URL is required: a non-empty alphabetic scheme followed by a colon
and two slashes, then authority, optional path, query and fragment.
Relative references and strings without a scheme fail.  Percent decoding,
case folding and default-port stripping are not modelled. -/
def urlParse (input : List Char) : Option URLRec :=
  let sp := spanAlpha input
  match sp.2 with
  | ':' :: '/' :: '/' :: rest1 =>
    if sp.1 = [] then none else urlParseAfterScheme sp.1 rest1
  | _ => none

/-- The userinfo serialization: mirrors the auth string built by parseUrl in
the multi-URL component, username plus optional colon password plus at-sign
when either credential is non-empty, otherwise empty. -/
def userinfoChars (username password : List Char) : List Char :=
  if username = [] ∧ password = [] then []
  else username ++ (if password = [] then [] else ':' :: password) ++ ['@']

/-- A colon-prefixed port, omitted when the port is empty. -/
def portChunk (port : List Char) : List Char :=
  if port = [] then [] else ':' :: port

/-- A marker-prefixed optional component, empty when absent. -/
def optChunk (c : Char) : Option (List Char) → List Char
  | none => []
  | some q => c :: q

/-- Modelled from the spec: the href serialization of the URL record, the
scheme, two slashes, userinfo when present, hostname, optional port, path,
and the query and fragment each with its marker when present. -/
def hrefChars (r : URLRec) : List Char :=
  r.scheme ++ ':' :: '/' :: '/' ::
    (userinfoChars r.username r.password ++ r.hostname ++ portChunk r.port ++
     r.pathname ++ optChunk '?' r.query ++ optChunk '#' r.fragment)

/-- Splits a list on a separator character; empty segments are kept. -/
def splitSep (c : Char) : List Char → List (List Char)
  | [] => [[]]
  | x :: xs =>
    let r := splitSep c xs
    if x = c then [] :: r
    else
      match r with
      | [] => [[x]]
      | a :: rest => (x :: a) :: rest

/-- Modelled from the spec: the ordered name and value pairs of the query
string, as iterated by searchParams.forEach.  Segments are separated by
ampersands, empty segments are skipped, the name ends at the first equals
sign, and a segment without an equals sign has the empty value. -/
def queryPairs (q : Option (List Char)) : List (String × String) :=
  match q with
  | none => []
  | some qs =>
    ((splitSep '&' qs).filter (fun seg => decide (seg ≠ []))).map (fun seg =>
      let kv := breakFirst '=' seg
      (String.mk kv.1, String.mk (kv.2.getD [])))

/-- Assignment to a key of a record object: the value of an existing key is
overwritten in place, a new key is appended.  Mirrors the statement
searchParams[key] = value on a plain object. -/
def recordInsert (m : List (String × String)) (key value : String) :
    List (String × String) :=
  match m with
  | [] => [(key, value)]
  | kv :: rest =>
    if kv.1 = key then (key, value) :: rest else kv :: recordInsert rest key value

/-- The searchParams object built by parseUrl: the ordered pairs of the
query are folded in order into an initially empty record, so a repeated
name overwrites the earlier value. -/
def foldSearchParams (pairs : List (String × String)) : List (String × String) :=
  pairs.foldl (fun acc kv => recordInsert acc kv.1 kv.2) []

/-- Reads a key of a record object. -/
def recordLookup (m : List (String × String)) (k : String) : Option String :=
  (m.find? (fun kv => decide (kv.1 = k))).map Prod.snd

/-- The ParsedURL record of src/models/ParsedURL.ts: every field optional,
with error present only on parse failure. -/
structure ParsedURL where
  href : Option String := none
  auth : Option String := none
  protocol : Option String := none
  username : Option String := none
  password : Option String := none
  host : Option String := none
  hostname : Option String := none
  port : Option String := none
  pathname : Option String := none
  search : Option String := none
  searchParams : Option (List (String × String)) := none
  hash : Option String := none
  error : Option String := none
deriving DecidableEq

/-- The search field: the raw query with its leading question mark, empty
when the query is absent or empty. -/
def searchChars (q : Option (List Char)) : List Char :=
  match q with
  | none => []
  | some [] => []
  | some qs => '?' :: qs

/-- The hash field: the fragment with its leading hash mark, empty when the
fragment is absent or empty. -/
def hashChars (f : Option (List Char)) : List Char :=
  match f with
  | none => []
  | some [] => []
  | some fs => '#' :: fs

/-- parseUrl of the multi-URL component (part_003 lines 75 to 109): wraps
the URL primitive, extracts searchParams by folding the query pairs into a
record, builds the auth string from username and password, and converts any
failure into a record holding only an error message. -/
def parseUrl (inputUrl : String) : ParsedURL :=
  match urlParse inputUrl.data with
  | some parsed =>
    { href := some (String.mk (hrefChars parsed)),
      auth := some (String.mk (userinfoChars parsed.username parsed.password)),
      protocol := some (String.mk (parsed.scheme ++ [':'])),
      username := some (String.mk parsed.username),
      password := some (String.mk parsed.password),
      host := some (String.mk (parsed.hostname ++ portChunk parsed.port)),
      hostname := some (String.mk parsed.hostname),
      port := some (String.mk parsed.port),
      pathname := some (String.mk parsed.pathname),
      search := some (String.mk (searchChars parsed.query)),
      searchParams := some (foldSearchParams (queryPairs parsed.query)),
      hash := some (String.mk (hashChars parsed.fragment)),
      error := none }
  | none => { error := some ("Invalid URL: " ++ inputUrl) }

/-- The string-valued component keys the diff functions are indexed by. -/
inductive UrlKey
  | protocol
  | auth
  | username
  | password
  | host
  | hostname
  | port
  | pathname
  | search
  | hash
deriving DecidableEq

/-- Dynamic field access url[key] for the string-valued keys. -/
def indexKey (url : ParsedURL) (key : UrlKey) : Option String :=
  match key with
  | .protocol => url.protocol
  | .auth => url.auth
  | .username => url.username
  | .password => url.password
  | .host => url.host
  | .hostname => url.hostname
  | .port => url.port
  | .pathname => url.pathname
  | .search => url.search
  | .hash => url.hash

/-- The defaulting of getDiffMap in URLParser.tsx: url[key] or a dash, so
both an absent field and an empty string collapse to a dash. -/
def orDash (v : Option String) : String :=
  match v with
  | none => "-"
  | some s => if s = "" then "-" else s

/-- The defaulting of getComponentDiffs: url[key] when defined, otherwise
the empty string. -/
def orEmpty (v : Option String) : String := v.getD ""

/-- getDiffMap of URLParser.tsx lines 115 to 125: per index, whether the
dash-defaulted value differs from the value at index zero. -/
def getDiffMap (parsedUrls : List ParsedURL) (key : UrlKey) : List Bool :=
  let values := parsedUrls.map (fun url => orDash (indexKey url key))
  match values with
  | [] => []
  | baseValue :: _ => values.map (fun val => decide (val ≠ baseValue))

/-- getComponentDiffs of the multi-URL component, lines 139 to 154: per
index, whether the empty-defaulted value differs from the value at index
zero; the empty set gives the empty map. -/
def getComponentDiffs (parsedUrls : List ParsedURL) (key : UrlKey) : List Bool :=
  if parsedUrls.length = 0 then []
  else
    let values := parsedUrls.map (fun url => orEmpty (indexKey url key))
    match values with
    | [] => []
    | baseValue :: _ => values.map (fun val => decide (val ≠ baseValue))

/-- The compared value of the query-parameter diff in DiffCheckerView:
url.searchParams optional-chained at param, with a falsy result collapsed
to null, so an absent searchParams record, an absent name and a present
name with the empty value all give none. -/
def paramValue (url : ParsedURL) (param : String) : Option String :=
  match url.searchParams with
  | none => none
  | some sp =>
    match recordLookup sp param with
    | none => none
    | some v => if v = "" then none else some v

/-- The per-parameter diff row of DiffCheckerView, lines 427 to 445: per
index, whether the compared value differs from the compared value at index
zero. -/
def paramDiffs (parsedUrls : List ParsedURL) (param : String) : List Bool :=
  let values := parsedUrls.map (fun url => paramValue url param)
  match values with
  | [] => []
  | firstValue :: _ => values.map (fun v => decide (v ≠ firstValue))

/-- The union of the query-parameter names of all entries, in first-seen
order, as gathered into a Set by DiffCheckerView lines 289 to 297. -/
def allSearchParams (parsedUrls : List ParsedURL) : List String :=
  parsedUrls.foldl (fun acc url =>
    match url.searchParams with
    | none => acc
    | some sp =>
      sp.foldl (fun acc2 kv => if kv.1 ∈ acc2 then acc2 else acc2 ++ [kv.1]) acc) []

/-- The structural component keys compared by DiffCheckerView. -/
def trackedComponentKeys : List UrlKey :=
  [.protocol, .auth, .hostname, .port, .pathname, .search, .hash]

theorem getDiffMap_cons (u : ParsedURL) (us : List ParsedURL) (k : UrlKey) :
    getDiffMap (u :: us) k =
      (orDash (indexKey u k) :: us.map (fun x => orDash (indexKey x k))).map
        (fun val => decide (val ≠ orDash (indexKey u k))) := rfl

theorem getComponentDiffs_cons (u : ParsedURL) (us : List ParsedURL) (k : UrlKey) :
    getComponentDiffs (u :: us) k =
      (orEmpty (indexKey u k) :: us.map (fun x => orEmpty (indexKey x k))).map
        (fun val => decide (val ≠ orEmpty (indexKey u k))) := rfl

theorem paramDiffs_cons (u : ParsedURL) (us : List ParsedURL) (param : String) :
    paramDiffs (u :: us) param =
      (paramValue u param :: us.map (fun x => paramValue x param)).map
        (fun v => decide (v ≠ paramValue u param)) := rfl

theorem orDash_eq_iff {a b : Option String} (ha : a ≠ some ("-"))
    (hb : b ≠ some ("-")) : (orDash a = orDash b) ↔ (orEmpty a = orEmpty b) := by
  cases a with
  | none =>
    cases b with
    | none => simp
    | some t =>
      by_cases ht : t = ""
      · subst ht
        simp [orDash, orEmpty]
      · have ht2 : t ≠ "-" := fun hh => hb (by rw [hh])
        simp only [orDash, orEmpty, if_neg ht, Option.getD_none, Option.getD_some]
        apply iff_of_false
        · intro hc
          exact ht2 hc.symm
        · intro hc
          exact ht hc.symm
  | some s =>
    cases b with
    | none =>
      by_cases hs : s = ""
      · subst hs
        simp [orDash, orEmpty]
      · have hs2 : s ≠ "-" := fun hh => ha (by rw [hh])
        simp only [orDash, orEmpty, if_neg hs, Option.getD_none, Option.getD_some]
        apply iff_of_false
        · intro hc
          exact hs2 hc
        · intro hc
          exact hs hc
    | some t =>
      by_cases hs : s = "" <;> by_cases ht : t = ""
      · subst hs
        subst ht
        simp
      · subst hs
        have ht2 : t ≠ "-" := fun hh => hb (by rw [hh])
        simp only [orDash, orEmpty, if_pos rfl, if_neg ht, Option.getD_some]
        apply iff_of_false
        · intro hc
          exact ht2 hc.symm
        · intro hc
          exact ht hc.symm
      · subst ht
        have hs2 : s ≠ "-" := fun hh => ha (by rw [hh])
        simp only [orDash, orEmpty, if_pos rfl, if_neg hs, Option.getD_some]
        apply iff_of_false
        · intro hc
          exact hs2 hc
        · intro hc
          exact hs hc
      · simp only [orDash, orEmpty, if_neg hs, if_neg ht, Option.getD_some]

theorem find?_recordInsert (m : List (String × String)) (key value k : String) :
    List.find? (fun kv => decide (kv.1 = k)) (recordInsert m key value) =
      if key = k then some (key, value)
      else List.find? (fun kv => decide (kv.1 = k)) m := by
  induction m with
  | nil =>
    by_cases hk : key = k <;> simp [recordInsert, List.find?, hk]
  | cons kv rest ih =>
    by_cases h1 : kv.1 = key
    · by_cases hk : key = k
      · simp [recordInsert, h1, List.find?, hk]
      · have h2 : ¬(kv.1 = k) := fun hh => hk (h1.symm.trans hh)
        simp [recordInsert, h1, List.find?, hk, h2]
    · by_cases hk : key = k
      · subst hk
        simp [recordInsert, h1, List.find?, ih]
      · by_cases h2 : kv.1 = k
        · have h3 : ¬(k = key) := fun hh => hk hh.symm
          simp [recordInsert, h1, List.find?, hk, h2, h3]
        · simp [recordInsert, h1, List.find?, hk, h2, ih]

theorem recordLookup_insert (m : List (String × String)) (key value k : String) :
    recordLookup (recordInsert m key value) k =
      if key = k then some value else recordLookup m k := by
  unfold recordLookup
  rw [find?_recordInsert]
  by_cases hk : key = k <;> simp [hk]

theorem recordLookup_fold (ps : List (String × String))
    (m : List (String × String)) (k : String) :
    recordLookup (ps.foldl (fun acc kv => recordInsert acc kv.1 kv.2) m) k =
      match ps.reverse.find? (fun kv => decide (kv.1 = k)) with
      | some kv => some kv.2
      | none => recordLookup m k := by
  induction ps generalizing m with
  | nil => simp
  | cons p pt ih =>
    simp only [List.foldl_cons, List.reverse_cons]
    rw [ih, List.find?_append]
    cases hf : pt.reverse.find? (fun kv => decide (kv.1 = k)) with
    | some kv => simp
    | none =>
      by_cases hp : p.1 = k
      · simp [List.find?, hp, recordLookup_insert]
      · simp [List.find?, hp, recordLookup_insert]

/-- Claim C1 counterexample: for the set of parse of bad and parse of
https://h/path, it is not the case that every tracked structural key flags
entry 1 as true; the keys whose value at entry 1 is empty compare equal to
the failed baseline and flag false. -/
theorem c1_counterexample :
    ¬ (∀ k ∈ trackedComponentKeys,
        (getComponentDiffs [parseUrl ("bad"), parseUrl ("https://h/path")] k)[1]?
          = some true) := by decide

/-- Claim C1 as amended: with a failed baseline at index 0 and parse of
https://h/path at index 1, the structural diff flags entry 1 true exactly
for protocol, hostname and pathname, and false for auth, port, search and
hash, whose values at entry 1 are empty and so equal the empty defaults of
the failed baseline. -/
theorem c1_amended :
    getComponentDiffs [parseUrl ("bad"), parseUrl ("https://h/path")] UrlKey.protocol
        = [false, true] ∧
    getComponentDiffs [parseUrl ("bad"), parseUrl ("https://h/path")] UrlKey.hostname
        = [false, true] ∧
    getComponentDiffs [parseUrl ("bad"), parseUrl ("https://h/path")] UrlKey.pathname
        = [false, true] ∧
    getComponentDiffs [parseUrl ("bad"), parseUrl ("https://h/path")] UrlKey.auth
        = [false, false] ∧
    getComponentDiffs [parseUrl ("bad"), parseUrl ("https://h/path")] UrlKey.port
        = [false, false] ∧
    getComponentDiffs [parseUrl ("bad"), parseUrl ("https://h/path")] UrlKey.search
        = [false, false] ∧
    getComponentDiffs [parseUrl ("bad"), parseUrl ("https://h/path")] UrlKey.hash
        = [false, false] := by decide

/-- Claim C2 counterexample: for parse of https://h/?a= the name a is
present with the empty value, yet the compared value of the parameter diff
is the absent sentinel, and against an entry where a is absent the diff
reports no difference. -/
theorem c2_counterexample :
    (parseUrl ("https://h/?a=")).searchParams = some [(("a"), (""))] ∧
    paramValue (parseUrl ("https://h/?a=")) ("a") = none ∧
    paramDiffs [parseUrl ("https://h/?a="), parseUrl ("https://h/")] ("a")
      = [false, false] := by decide

/-- Claim C2 as amended: the compared value of the query-parameter diff is
the searchParams value only when the name is present with a non-empty
value; an absent searchParams record, an absent name, and a present name
with the empty value all collapse to the sentinel none, so present with
empty string and absent compare as equal. -/
theorem c2_amended (url : ParsedURL) (sp : List (String × String)) (param v : String) :
    (url.searchParams = some sp → recordLookup sp param = some v → v ≠ ("") →
      paramValue url param = some v) ∧
    (url.searchParams = some sp → recordLookup sp param = some ("") →
      paramValue url param = none) ∧
    (url.searchParams = some sp → recordLookup sp param = none →
      paramValue url param = none) ∧
    (url.searchParams = none → paramValue url param = none) := by
  refine ⟨?_, ?_, ?_, ?_⟩
  · intro h1 h2 h3
    simp [paramValue, h1, h2, h3]
  · intro h1 h2
    simp [paramValue, h1, h2]
  · intro h1 h2
    simp [paramValue, h1, h2]
  · intro h1
    simp [paramValue, h1]

theorem c2_amended_witness :
    paramValue (parseUrl ("https://h/?a=1")) ("a") = some ("1") ∧
    paramValue (parseUrl ("https://h/?a=")) ("a") = none :=
  ⟨(c2_amended (parseUrl ("https://h/?a=1")) [(("a"), ("1"))] ("a") ("1")).1
      (by decide) (by decide) (by decide),
   (c2_amended (parseUrl ("https://h/?a=")) [(("a"), (""))] ("a") ("x")).2.1
      (by decide) (by decide)⟩

/-- Claim C3 counterexample: for the set of parse of https://h/?x=1 and
parse of https://h/?y=2, entry 0 is the baseline of the parameter diff and
is flagged false for the name y, not true as claimed. -/
theorem c3_counterexample :
    (paramDiffs [parseUrl ("https://h/?x=1"), parseUrl ("https://h/?y=2")] ("y"))[0]?
      = some false := by decide

/-- Claim C3 as amended: the tracked parameter names are the union of the
names of both entries, and entry 1 is flagged true both for x, whose value
differs from the baseline value 1, and for y, which the baseline lacks;
entry 0 is the baseline and is flagged false for every name. -/
theorem c3_amended :
    allSearchParams [parseUrl ("https://h/?x=1"), parseUrl ("https://h/?y=2")]
      = [("x"), ("y")] ∧
    paramDiffs [parseUrl ("https://h/?x=1"), parseUrl ("https://h/?y=2")] ("x")
      = [false, true] ∧
    paramDiffs [parseUrl ("https://h/?x=1"), parseUrl ("https://h/?y=2")] ("y")
      = [false, true] := by decide

/-- Claim C4: lookup of a folded searchParams record yields the value of
the last occurrence of the name in the ordered pair list, and in particular
parse of https://h/?a=1&a=2 maps a to 2. -/
theorem c4_last_wins :
    (∀ (ps : List (String × String)) (k : String),
        recordLookup (foldSearchParams ps) k =
          Option.map Prod.snd (ps.reverse.find? (fun kv => decide (kv.1 = k)))) ∧
    ((parseUrl ("https://h/?a=1&a=2")).searchParams.bind
        (fun sp => recordLookup sp ("a"))) = some ("2") := by
  constructor
  · intro ps k
    show recordLookup (ps.foldl (fun acc kv => recordInsert acc kv.1 kv.2) []) k = _
    rw [recordLookup_fold]
    cases hf : ps.reverse.find? (fun kv => decide (kv.1 = k)) with
    | some kv => simp
    | none => simp [recordLookup, List.find?]
  · decide

/-- Claim C5: for a non-empty comparison set the baseline entry at index 0
is never flagged, in either structural diff implementation. -/
theorem c5_baseline_self_false (urls : List ParsedURL) (k : UrlKey)
    (h : urls ≠ []) :
    (getDiffMap urls k).head? = some false ∧
    (getComponentDiffs urls k).head? = some false := by
  obtain ⟨u, us, rfl⟩ := List.exists_cons_of_ne_nil h
  rw [getDiffMap_cons, getComponentDiffs_cons]
  simp

theorem c5_baseline_self_false_witness :
    ([({} : ParsedURL)] ≠ []) ∧
    (getDiffMap [({} : ParsedURL)] UrlKey.protocol).head? = some false ∧
    (getComponentDiffs [({} : ParsedURL)] UrlKey.protocol).head? = some false :=
  ⟨by simp,
   (c5_baseline_self_false [({} : ParsedURL)] UrlKey.protocol (by simp)).1,
   (c5_baseline_self_false [({} : ParsedURL)] UrlKey.protocol (by simp)).2⟩

/-- Claim C6: parseUrl is total and converts every failure into the record
holding only a non-empty error message; no fault escapes its boundary. -/
theorem c6_failures_as_data (s : String) :
    (parseUrl s).error = none ∨
    ∃ msg, parseUrl s = { error := some msg } ∧ msg ≠ ("") := by
  rcases h : urlParse s.data with _ | r
  · right
    refine ⟨("Invalid URL: ") ++ s, ?_, ?_⟩
    · unfold parseUrl
      rw [h]
    · intro hmsg
      have hlen : (("Invalid URL: ") ++ s).length = ("" : String).length :=
        congrArg String.length hmsg
      rw [String.length_append] at hlen
      have h13 : ("Invalid URL: " : String).length = 13 := rfl
      have h0 : ("" : String).length = 0 := rfl
      omega
  · left
    unfold parseUrl
    rw [h]

/-- The success shape of a ParsedURL: every structural field present and no
error. -/
def successFields (p : ParsedURL) : Prop :=
  p.href.isSome = true ∧ p.auth.isSome = true ∧ p.protocol.isSome = true ∧
  p.username.isSome = true ∧ p.password.isSome = true ∧ p.host.isSome = true ∧
  p.hostname.isSome = true ∧ p.port.isSome = true ∧ p.pathname.isSome = true ∧
  p.search.isSome = true ∧ p.searchParams.isSome = true ∧ p.hash.isSome = true ∧
  p.error = none

/-- The failure shape of a ParsedURL: an error message and nothing else. -/
def failureFields (p : ParsedURL) : Prop :=
  p.error.isSome = true ∧ p.href = none ∧ p.auth = none ∧ p.protocol = none ∧
  p.username = none ∧ p.password = none ∧ p.host = none ∧ p.hostname = none ∧
  p.port = none ∧ p.pathname = none ∧ p.search = none ∧
  p.searchParams = none ∧ p.hash = none

/-- Claim C7: every record parseUrl returns is in exactly one of the two
mutually exclusive states, fully populated success without error, or
failure with only the error present. -/
theorem c7_two_states (s : String) :
    (successFields (parseUrl s) ∧ ¬ failureFields (parseUrl s)) ∨
    (failureFields (parseUrl s) ∧ ¬ successFields (parseUrl s)) := by
  rcases h : urlParse s.data with _ | r
  · right
    simp [parseUrl, h, successFields, failureFields]
  · left
    simp [parseUrl, h, successFields, failureFields]

/-- Claim C9 counterexample: on a record whose username is the literal dash
string against a record with no username, getDiffMap collapses the dash and
the absent value together while getComponentDiffs does not, so the two
implementations return different maps. -/
theorem c9_counterexample :
    getDiffMap [({ username := some ("-") } : ParsedURL), ({} : ParsedURL)]
        UrlKey.username = [false, false] ∧
    getComponentDiffs [({ username := some ("-") } : ParsedURL), ({} : ParsedURL)]
        UrlKey.username = [false, true] := by decide

/-- Claim C9 as amended: the two structural diff implementations agree on
every list in which no entry has the literal dash string as its value for
the tracked key. -/
theorem c9_agree_without_dash (urls : List ParsedURL) (k : UrlKey)
    (h : ∀ u ∈ urls, indexKey u k ≠ some ("-")) :
    getDiffMap urls k = getComponentDiffs urls k := by
  cases urls with
  | nil => rfl
  | cons u us =>
    have hu : indexKey u k ≠ some ("-") := h u (by simp)
    rw [getDiffMap_cons, getComponentDiffs_cons]
    simp only [List.map_cons, List.map_map]
    congr 1
    · simp
    · apply List.map_congr_left
      intro x hx
      simp only [Function.comp_apply]
      apply decide_eq_decide.mpr
      exact not_congr (orDash_eq_iff (h x (by simp [hx])) hu)

theorem c9_agree_without_dash_witness :
    getDiffMap [parseUrl ("https://a/p"), parseUrl ("https://b/q")] UrlKey.hostname
      = getComponentDiffs [parseUrl ("https://a/p"), parseUrl ("https://b/q")]
          UrlKey.hostname :=
  c9_agree_without_dash [parseUrl ("https://a/p"), parseUrl ("https://b/q")]
    UrlKey.hostname (by decide)

/-- Claim C10 counterexample: entry 1 parses successfully with the empty
username, the defaulted baseline value is the dash, which is a non-empty
string, yet entry 1 is not flagged by getDiffMap, because the baseline
value collapsed to the same dash default. -/
theorem c10_counterexample :
    (parseUrl ("https://h/")).username = some ("") ∧
    (parseUrl ("https://h/")).error = none ∧
    orDash ((parseUrl ("https://-@h/")).username) = ("-") ∧
    ("-" : String) ≠ ("") ∧
    (getDiffMap [parseUrl ("https://-@h/"), parseUrl ("https://h/")]
        UrlKey.username)[1]? = some false := by decide

/-- Claim C10 as amended: an entry whose value for the key is the empty
string or absent collapses to the default of each implementation, so its
flag depends only on the baseline: getDiffMap flags it exactly when the
dash-defaulted baseline value differs from the dash, and getComponentDiffs
flags it exactly when the empty-defaulted baseline value is non-empty. -/
theorem c10_empty_vs_failed (urls : List ParsedURL) (k : UrlKey) (i : Nat)
    (u0 ui : ParsedURL) (h0 : urls.head? = some u0) (hi : urls[i]? = some ui)
    (hval : indexKey ui k = some ("") ∨ indexKey ui k = none) :
    (getDiffMap urls k)[i]? = some (decide (orDash (indexKey u0 k) ≠ ("-"))) ∧
    (getComponentDiffs urls k)[i]?
      = some (decide (orEmpty (indexKey u0 k) ≠ (""))) := by
  cases urls with
  | nil => simp at h0
  | cons u us =>
    rw [List.head?_cons] at h0
    injection h0 with h0
    subst h0
    have hdash : orDash (indexKey ui k) = ("-") := by
      rcases hval with hv | hv <;> simp [orDash, hv]
    have hempty : orEmpty (indexKey ui k) = ("") := by
      rcases hval with hv | hv <;> simp [orEmpty, hv]
    rw [getDiffMap_cons, getComponentDiffs_cons]
    have hL1 : orDash (indexKey u k) :: us.map (fun x => orDash (indexKey x k))
        = (u :: us).map (fun x => orDash (indexKey x k)) := rfl
    have hL2 : orEmpty (indexKey u k) :: us.map (fun x => orEmpty (indexKey x k))
        = (u :: us).map (fun x => orEmpty (indexKey x k)) := rfl
    rw [hL1, hL2, List.getElem?_map, List.getElem?_map, List.getElem?_map,
      List.getElem?_map, hi]
    simp only [Option.map_some']
    constructor
    · rw [hdash]
      congr 1
      apply decide_eq_decide.mpr
      exact ne_comm
    · rw [hempty]
      congr 1
      apply decide_eq_decide.mpr
      exact ne_comm

theorem c10_empty_vs_failed_witness :
    (getDiffMap [parseUrl ("https://-@h/"), parseUrl ("https://h/")]
        UrlKey.username)[1]?
      = some (decide (orDash (indexKey (parseUrl ("https://-@h/"))
          UrlKey.username) ≠ ("-"))) ∧
    (getComponentDiffs [parseUrl ("https://-@h/"), parseUrl ("https://h/")]
        UrlKey.username)[1]?
      = some (decide (orEmpty (indexKey (parseUrl ("https://-@h/"))
          UrlKey.username) ≠ (""))) :=
  c10_empty_vs_failed [parseUrl ("https://-@h/"), parseUrl ("https://h/")]
    UrlKey.username 1 (parseUrl ("https://-@h/")) (parseUrl ("https://h/"))
    (by decide) (by decide) (by decide)

theorem breakFirst_optChunk (c : Char) {pre : List Char}
    (o : Option (List Char)) (hpre : c ∉ pre) :
    breakFirst c (pre ++ optChunk c o) = (pre, o) := by
  cases o with
  | none =>
    simp only [optChunk, List.append_nil]
    exact breakFirst_not_mem hpre
  | some q =>
    simp only [optChunk]
    exact breakFirst_append q hpre

theorem urlParse_assembled (sch auth path : List Char) (qo fo : Option (List Char))
    (hs1 : sch ≠ []) (hs2 : ∀ c ∈ sch, c.isAlpha = true)
    (ha1 : '/' ∉ auth) (ha2 : '?' ∉ auth) (ha3 : '#' ∉ auth)
    (hp1 : '?' ∉ path) (hp2 : '#' ∉ path)
    (hq : ∀ q2, qo = some q2 → '#' ∉ q2)
    (hh : (authParts auth).2.2.1 ≠ [])
    (hd : ∀ c ∈ (authParts auth).2.2.2, c.isDigit = true) :
    urlParse (sch ++ ':' :: '/' :: '/' ::
        (((auth ++ '/' :: path) ++ optChunk '?' qo) ++ optChunk '#' fo)) =
      some { scheme := sch, username := (authParts auth).1,
             password := (authParts auth).2.1,
             hostname := (authParts auth).2.2.1,
             port := (authParts auth).2.2.2,
             pathname := '/' :: path, query := qo, fragment := fo } := by
  have hqc : '#' ∉ optChunk '?' qo := by
    cases qo with
    | none => simp [optChunk]
    | some q2 =>
      simp only [optChunk, List.mem_cons, not_or]
      exact ⟨by decide, hq q2 rfl⟩
  have hpre1 : '#' ∉ (auth ++ '/' :: path) ++ optChunk '?' qo := by
    intro hc
    rcases List.mem_append.mp hc with h1 | h2
    · rcases List.mem_append.mp h1 with h3 | h4
      · exact ha3 h3
      · rcases List.mem_cons.mp h4 with h5 | h6
        · exact absurd h5 (by decide)
        · exact hp2 h6
    · exact hqc h2
  have hpre2 : '?' ∉ auth ++ '/' :: path := by
    intro hc
    rcases List.mem_append.mp hc with h1 | h2
    · exact ha2 h1
    · rcases List.mem_cons.mp h2 with h3 | h4
      · exact absurd h3 (by decide)
      · exact hp1 h4
  have hbh : breakFirst '#'
      (((auth ++ '/' :: path) ++ optChunk '?' qo) ++ optChunk '#' fo)
      = ((auth ++ '/' :: path) ++ optChunk '?' qo, fo) :=
    breakFirst_optChunk '#' fo hpre1
  have hbq : breakFirst '?' ((auth ++ '/' :: path) ++ optChunk '?' qo)
      = (auth ++ '/' :: path, qo) := breakFirst_optChunk '?' qo hpre2
  have hbp : breakFirst '/' (auth ++ '/' :: path) = (auth, some path) :=
    breakFirst_append path ha1
  have hspan : spanAlpha (sch ++ ':' :: '/' :: '/' ::
      (((auth ++ '/' :: path) ++ optChunk '?' qo) ++ optChunk '#' fo))
      = (sch, ':' :: '/' :: '/' ::
          (((auth ++ '/' :: path) ++ optChunk '?' qo) ++ optChunk '#' fo)) :=
    spanAlpha_append ':' _ hs2 (by decide)
  have hall : ((authParts auth).2.2.2.all Char.isDigit) = true :=
    List.all_eq_true.mpr hd
  unfold urlParse
  rw [hspan]
  simp only []
  rw [if_neg hs1]
  unfold urlParseAfterScheme
  rw [hbh]
  simp only []
  rw [hbq]
  simp only []
  rw [hbp]
  simp only []
  rw [if_neg hh, if_pos hall]
  simp [Option.getD]

theorem authParts_eq (auth : List Char) :
    authParts auth =
      ((match (breakLast '@' auth).1 with
        | none => (([] : List Char), (none : Option (List Char)))
        | some ui => breakFirst ':' ui).1,
       (match (breakLast '@' auth).1 with
        | none => (([] : List Char), (none : Option (List Char)))
        | some ui => breakFirst ':' ui).2.getD [],
       (breakFirst ':' (breakLast '@' auth).2).1,
       (breakFirst ':' (breakLast '@' auth).2).2.getD []) := rfl

theorem authParts_props (auth : List Char) :
    ':' ∉ (authParts auth).1 ∧ ':' ∉ (authParts auth).2.2.1 ∧
    '@' ∉ (authParts auth).2.2.1 ∧ '@' ∉ (authParts auth).2.2.2 ∧
    (∀ c ∈ (authParts auth).1, c ∈ auth) ∧
    (∀ c ∈ (authParts auth).2.1, c ∈ auth) ∧
    (∀ c ∈ (authParts auth).2.2.1, c ∈ auth) ∧
    (∀ c ∈ (authParts auth).2.2.2, c ∈ auth) := by
  rcases hba : breakLast '@' auth with ⟨uio, hpt⟩
  rcases hhp : breakFirst ':' hpt with ⟨hst, ppo⟩
  have hpt_mem : ∀ c ∈ hpt, c ∈ auth := by
    cases uio with
    | none =>
      obtain ⟨heq, _⟩ := breakLast_none hba
      intro c hc
      exact heq ▸ hc
    | some ui =>
      obtain ⟨heq, _⟩ := breakLast_some hba
      intro c hc
      rw [heq]
      simp [hc]
  have hpt_noamp : '@' ∉ hpt := by
    cases uio with
    | none =>
      obtain ⟨heq, hnm⟩ := breakLast_none hba
      exact fun hc => hnm (heq ▸ hc)
    | some ui => exact (breakLast_some hba).2
  have hst_mem : ∀ c ∈ hst, c ∈ hpt := by
    cases ppo with
    | none =>
      obtain ⟨heq, _⟩ := breakFirst_none hhp
      intro c hc
      exact heq ▸ hc
    | some p =>
      obtain ⟨heq, _⟩ := breakFirst_some hhp
      intro c hc
      rw [heq]
      simp [hc]
  have hst_nocolon : ':' ∉ hst := by
    cases ppo with
    | none =>
      obtain ⟨heq, hnm⟩ := breakFirst_none hhp
      exact fun hc => hnm (heq ▸ hc)
    | some p => exact (breakFirst_some hhp).2
  have hpo_mem : ∀ c ∈ ppo.getD [], c ∈ hpt := by
    cases ppo with
    | none => simp
    | some p =>
      obtain ⟨heq, _⟩ := breakFirst_some hhp
      intro c hc
      simp only [Option.getD_some] at hc
      rw [heq]
      simp [hc]
  have hu_facts :
      ':' ∉ (match uio with
        | none => (([] : List Char), (none : Option (List Char)))
        | some ui => breakFirst ':' ui).1 ∧
      (∀ c ∈ (match uio with
        | none => (([] : List Char), (none : Option (List Char)))
        | some ui => breakFirst ':' ui).1, c ∈ auth) ∧
      (∀ c ∈ (match uio with
        | none => (([] : List Char), (none : Option (List Char)))
        | some ui => breakFirst ':' ui).2.getD [], c ∈ auth) := by
    cases uio with
    | none => simp
    | some ui =>
      obtain ⟨heqa, _⟩ := breakLast_some hba
      have hui_mem : ∀ c ∈ ui, c ∈ auth := by
        intro c hc
        rw [heqa]
        simp [hc]
      rcases hbu : breakFirst ':' ui with ⟨uu, up⟩
      simp only [hbu]
      cases up with
      | none =>
        obtain ⟨hequ, hnmu⟩ := breakFirst_none hbu
        refine ⟨fun hc => hnmu (hequ ▸ hc), ?_, by simp⟩
        intro c hc
        exact hui_mem c (hequ ▸ hc)
      | some pw =>
        obtain ⟨hequ, hnmu⟩ := breakFirst_some hbu
        refine ⟨hnmu, ?_, ?_⟩
        · intro c hc
          apply hui_mem
          rw [hequ]
          simp [hc]
        · intro c hc
          simp only [Option.getD_some] at hc
          apply hui_mem
          rw [hequ]
          simp [hc]
  rw [authParts_eq, hba, hhp]
  exact ⟨hu_facts.1, hst_nocolon, fun hc => hpt_noamp (hst_mem _ hc),
    fun hc => hpt_noamp (hpo_mem _ hc), hu_facts.2.1, hu_facts.2.2,
    fun c hc => hpt_mem c (hst_mem c hc), fun c hc => hpt_mem c (hpo_mem c hc)⟩

theorem mem_userinfoChars {c : Char} {u pw : List Char}
    (h : c ∈ userinfoChars u pw) : c ∈ u ∨ c ∈ pw ∨ c = ':' ∨ c = '@' := by
  unfold userinfoChars at h
  by_cases hup : u = [] ∧ pw = []
  · rw [if_pos hup] at h
    simp at h
  · rw [if_neg hup] at h
    rcases List.mem_append.mp h with h1 | h2
    · rcases List.mem_append.mp h1 with h3 | h4
      · exact Or.inl h3
      · by_cases hpw : pw = []
        · rw [if_pos hpw] at h4
          simp at h4
        · rw [if_neg hpw] at h4
          rcases List.mem_cons.mp h4 with h5 | h6
          · exact Or.inr (Or.inr (Or.inl h5))
          · exact Or.inr (Or.inl h6)
    · simp at h2
      exact Or.inr (Or.inr (Or.inr h2))

theorem mem_portChunk {c : Char} {po : List Char}
    (h : c ∈ portChunk po) : c = ':' ∨ c ∈ po := by
  unfold portChunk at h
  by_cases hpo : po = []
  · rw [if_pos hpo] at h
    simp at h
  · rw [if_neg hpo] at h
    rcases List.mem_cons.mp h with h1 | h2
    · exact Or.inl h1
    · exact Or.inr h2

theorem authParts_serialized {u pw hst po : List Char}
    (hu : ':' ∉ u) (hh1 : ':' ∉ hst) (hh2 : '@' ∉ hst)
    (hpo1 : '@' ∉ po) (hpo2 : ':' ∉ po) :
    authParts (userinfoChars u pw ++ hst ++ portChunk po) = (u, pw, hst, po) := by
  have hhp_break : breakFirst ':' (hst ++ portChunk po)
      = (hst, if po = [] then none else some po) := by
    by_cases hpo : po = []
    · subst hpo
      rw [if_pos rfl]
      have hp0 : portChunk ([] : List Char) = [] := by simp [portChunk]
      rw [hp0, List.append_nil]
      exact breakFirst_not_mem hh1
    · rw [if_neg hpo]
      have hp1 : portChunk po = ':' :: po := by simp [portChunk, hpo]
      rw [hp1]
      exact breakFirst_append po hh1
  have hamp_hp : '@' ∉ hst ++ portChunk po := by
    intro hc
    rcases List.mem_append.mp hc with h1 | h2
    · exact hh2 h1
    · rcases mem_portChunk h2 with h3 | h4
      · exact absurd h3 (by decide)
      · exact hpo1 h4
  by_cases hup : u = [] ∧ pw = []
  · obtain ⟨hu0, hpw0⟩ := hup
    subst hu0
    subst hpw0
    have hue : userinfoChars ([] : List Char) ([] : List Char) = [] := by
      simp [userinfoChars]
    rw [hue, List.nil_append]
    rw [authParts_eq, breakLast_not_mem hamp_hp]
    simp only []
    rw [hhp_break]
    by_cases hpo : po = []
    · subst hpo
      simp
    · simp [if_neg hpo]
  · have hx : userinfoChars u pw ++ hst ++ portChunk po
        = (u ++ (if pw = [] then [] else ':' :: pw)) ++ '@' :: (hst ++ portChunk po) := by
      simp only [userinfoChars, if_neg hup]
      simp [List.append_assoc]
    have hbu : breakFirst ':' (u ++ (if pw = [] then [] else ':' :: pw))
        = (u, if pw = [] then none else some pw) := by
      by_cases hpw : pw = []
      · simp only [if_pos hpw, List.append_nil]
        exact breakFirst_not_mem hu
      · simp only [if_neg hpw]
        exact breakFirst_append pw hu
    rw [hx, authParts_eq, breakLast_append _ hamp_hp]
    simp only []
    rw [hbu, hhp_break]
    by_cases hpw : pw = [] <;> by_cases hpo : po = []
    · subst hpw
      subst hpo
      simp
    · subst hpw
      simp [if_neg hpo]
    · subst hpo
      simp [if_neg hpw]
    · simp [if_neg hpw, if_neg hpo]

theorem urlParse_assembled_roundtrip (sch auth path : List Char)
    (qo fo : Option (List Char))
    (hs1 : sch ≠ []) (hs2 : ∀ c ∈ sch, c.isAlpha = true)
    (ha1 : '/' ∉ auth) (ha2 : '?' ∉ auth) (ha3 : '#' ∉ auth)
    (hp1 : '?' ∉ path) (hp2 : '#' ∉ path)
    (hq : ∀ q2, qo = some q2 → '#' ∉ q2)
    (hh : (authParts auth).2.2.1 ≠ [])
    (hd : ∀ c ∈ (authParts auth).2.2.2, c.isDigit = true) :
    ∃ r : URLRec,
      urlParse (sch ++ ':' :: '/' :: '/' ::
          (((auth ++ '/' :: path) ++ optChunk '?' qo) ++ optChunk '#' fo))
        = some r ∧
      urlParse (hrefChars r) = some r := by
  obtain ⟨hc1, hc2, hc3, hc4, hm1, hm2, hm3, hm4⟩ := authParts_props auth
  have hpo2 : ':' ∉ (authParts auth).2.2.2 := by
    intro hc
    have hdg := hd _ hc
    rw [show (':' : Char).isDigit = false from by decide] at hdg
    exact Bool.false_ne_true hdg
  refine ⟨_, urlParse_assembled sch auth path qo fo hs1 hs2 ha1 ha2 ha3 hp1
    hp2 hq hh hd, ?_⟩
  have hser := @authParts_serialized (authParts auth).1 (authParts auth).2.1
    (authParts auth).2.2.1 (authParts auth).2.2.2 hc1 hc2 hc3 hc4 hpo2
  have hnm : ∀ d : Char, d ∉ auth → d ≠ ':' → d ≠ '@' →
      d ∉ userinfoChars (authParts auth).1 (authParts auth).2.1 ++
          (authParts auth).2.2.1 ++ portChunk (authParts auth).2.2.2 := by
    intro d hd1 hd2 hd3 hcm
    rcases List.mem_append.mp hcm with hca | hcb
    · rcases List.mem_append.mp hca with hcc | hcd
      · rcases mem_userinfoChars hcc with h | h | h | h
        · exact hd1 (hm1 _ h)
        · exact hd1 (hm2 _ h)
        · exact hd2 h
        · exact hd3 h
      · exact hd1 (hm3 _ hcd)
    · rcases mem_portChunk hcb with h | h
      · exact hd2 h
      · exact hd1 (hm4 _ h)
  have ha1b := hnm '/' ha1 (by decide) (by decide)
  have ha2b := hnm '?' ha2 (by decide) (by decide)
  have ha3b := hnm '#' ha3 (by decide) (by decide)
  have hhb : (authParts (userinfoChars (authParts auth).1 (authParts auth).2.1 ++
      (authParts auth).2.2.1 ++ portChunk (authParts auth).2.2.2)).2.2.1 ≠ [] := by
    rw [hser]
    exact hh
  have hdb : ∀ c ∈ (authParts (userinfoChars (authParts auth).1 (authParts auth).2.1 ++
      (authParts auth).2.2.1 ++ portChunk (authParts auth).2.2.2)).2.2.2,
      c.isDigit = true := by
    rw [hser]
    exact hd
  have happly := urlParse_assembled sch
    (userinfoChars (authParts auth).1 (authParts auth).2.1 ++
      (authParts auth).2.2.1 ++ portChunk (authParts auth).2.2.2)
    path qo fo hs1 hs2 ha1b ha2b ha3b hp1 hp2 hq hhb hdb
  rw [hser] at happly
  exact happly

/-- A well-formed absolute URL string containing all five parts: a
non-empty alphabetic scheme, an authority whose host is non-empty and
whose optional port is numeric, a path, a query and a fragment, each
introduced by its marker, with no marker character occurring before its
own component. -/
def WellFormedURL (s : String) : Prop :=
  ∃ (sch auth path q frag : List Char),
    s.data = sch ++ ':' :: '/' :: '/' ::
        (((auth ++ '/' :: path) ++ '?' :: q) ++ '#' :: frag) ∧
    sch ≠ [] ∧ (∀ c ∈ sch, c.isAlpha = true) ∧
    '/' ∉ auth ∧ '?' ∉ auth ∧ '#' ∉ auth ∧
    '?' ∉ path ∧ '#' ∉ path ∧ '#' ∉ q ∧
    (authParts auth).2.2.1 ≠ [] ∧
    ∀ c ∈ (authParts auth).2.2.2, c.isDigit = true

/-- Claim C8: on every well-formed URL string containing scheme, authority,
path, query and fragment, parseUrl succeeds, and parsing the returned href
again yields the same ParsedURL, whose href is byte-identical to the
first. -/
theorem c8_roundtrip (s : String) (h : WellFormedURL s) :
    ∃ (p : ParsedURL) (href2 : String),
      parseUrl s = p ∧ p.error = none ∧ p.href = some href2 ∧
      parseUrl href2 = p := by
  obtain ⟨sch, auth, path, q, frag, hdec, hs1, hs2, ha1, ha2, ha3, hp1, hp2,
    hq, hh, hd⟩ := h
  have hqfun : ∀ q2, (some q : Option (List Char)) = some q2 → '#' ∉ q2 := by
    intro q2 he
    injection he with he
    subst he
    exact hq
  obtain ⟨r, hr1, hr2⟩ := urlParse_assembled_roundtrip sch auth path (some q)
    (some frag) hs1 hs2 ha1 ha2 ha3 hp1 hp2 hqfun hh hd
  have hr1s : urlParse s.data = some r := by
    rw [hdec]
    exact hr1
  refine ⟨parseUrl s, String.mk (hrefChars r), rfl, ?_, ?_, ?_⟩
  · unfold parseUrl
    rw [hr1s]
  · unfold parseUrl
    rw [hr1s]
  · have hdata : urlParse (String.mk (hrefChars r)).data = some r := hr2
    unfold parseUrl
    rw [hdata, hr1s]

theorem c8_roundtrip_witness :
    WellFormedURL ("https://u:p@example.com:8080/a/b?x=1&y=2#frag") ∧
    ∃ (p : ParsedURL) (href2 : String),
      parseUrl ("https://u:p@example.com:8080/a/b?x=1&y=2#frag") = p ∧
      p.error = none ∧ p.href = some href2 ∧ parseUrl href2 = p := by
  have hwf : WellFormedURL ("https://u:p@example.com:8080/a/b?x=1&y=2#frag") :=
    ⟨("https").data, ("u:p@example.com:8080").data, ("a/b").data,
     ("x=1&y=2").data, ("frag").data, by decide, by decide, by decide,
     by decide, by decide, by decide, by decide, by decide, by decide,
     by decide, by decide⟩
  exact ⟨hwf, c8_roundtrip _ hwf⟩
